import Mathlib

/-!
Shallow embedding of the `process-memory-reader` crate
(src/lib.rs, src/linux.rs, src/windows.rs).

The OS surface is modelled by explicit function parameters:

* `rpm : Nat → Nat → Option (List Nat)` models `ReadProcessMemory`
  (handle-based backend): given an address and a requested length it
  either fails (`none`, the call itself returns FALSE) or returns the
  bytes actually copied into the buffer, whose count is the value the
  OS stores in `lpNumberOfBytesRead` (possibly fewer, or in principle
  other, than requested).
* `pvr : Nat → Nat → Nat → Except Nat (List Nat)` models
  `process_vm_readv` (syscall-based backend): given pid, address and
  length it either fails with an OS errno (`-1` return, the `.error`
  case) or returns the bytes read.
* module enumeration, the toolhelp snapshot and the `/proc` directory
  are passed as explicit data (see the structures below).

Machine integers are `Nat`/`Int`; bytes are `Nat` values `< 256` in
the intended models but the code never relies on that bound. Rust
strings are `List Char` (their scalar values), so every operation on
them is structurally recursive and evaluates by `decide`.
-/

namespace ProcessMemoryReader

/-- Scalar values of a string literal, to write concrete `List Char`
inputs legibly. -/
def chars (s : String) : List Char :=
  s.data

/-- Equality on `Except` results is decidable; needed so concrete
outcomes of the fallible operations can be settled by `decide`. -/
def exceptDecEq {ε α : Type} [DecidableEq ε] [DecidableEq α] :
    (a b : Except ε α) → Decidable (a = b)
  | .error e, .error f =>
    if h : e = f then .isTrue (h ▸ rfl)
    else .isFalse fun hh => h (Except.error.inj hh)
  | .error _, .ok _ => .isFalse fun hh => Except.noConfusion hh
  | .ok _, .error _ => .isFalse fun hh => Except.noConfusion hh
  | .ok x, .ok y =>
    if h : x = y then .isTrue (h ▸ rfl)
    else .isFalse fun hh => h (Except.ok.inj hh)

instance {ε α : Type} [DecidableEq ε] [DecidableEq α] :
    DecidableEq (Except ε α) :=
  exceptDecEq

/-- Errors of the crate: `MemoryReadError` of src/lib.rs
(`InaccessibleMemoryAddress`, `LessBytesRead`) together with the
`IOError` variant the syscall-based backend in src/linux.rs uses;
the payload of `IOError` is the OS errno. -/
inductive MemoryReadError where
  | InaccessibleMemoryAddress (address : Nat)
  | LessBytesRead (expected actual : Nat)
  | IOError (io_error : Nat)
deriving DecidableEq, Repr

namespace Process

/-- src/lib.rs `Process::read_bytes` (identically src/windows.rs
`WindowsProcess::read_bytes`): one `ReadProcessMemory` call for the
whole buffer; a FALSE return maps to `InaccessibleMemoryAddress` with
the requested address, a successful call whose reported byte count
differs from the buffer length maps to `LessBytesRead`; on success the
buffer holds exactly the `len` bytes returned by the call. -/
def read_bytes (rpm : Nat → Nat → Option (List Nat)) (address len : Nat) :
    Except MemoryReadError (List Nat) :=
  match rpm address len with
  | none => .error (.InaccessibleMemoryAddress address)
  | some data =>
    if data.length ≠ len then .error (.LessBytesRead len data.length)
    else .ok data

/-- src/lib.rs `Process::read_u8`: a one-byte `read_bytes`, returning
`buffer[0]` (on success the buffer has length exactly 1, so `headD 0`
is that byte). -/
def read_u8 (rpm : Nat → Nat → Option (List Nat)) (address : Nat) :
    Except MemoryReadError Nat :=
  match read_bytes rpm address 1 with
  | .error e => .error e
  | .ok data => .ok (data.headD 0)

/-- src/lib.rs `Process::read_bool`: `Ok(self.read_u8(address)? == 1)`. -/
def read_bool (rpm : Nat → Nat → Option (List Nat)) (address : Nat) :
    Except MemoryReadError Bool :=
  match read_u8 rpm address with
  | .error e => .error e
  | .ok b => .ok (b == 1)

end Process

/-- Little-endian byte list of a `Nat`, `w` bytes wide: the encoding
`$type::to_le_bytes` would produce for an unsigned value. -/
def leBytes : Nat → Nat → List Nat
  | 0, _ => []
  | w + 1, v => v % 256 :: leBytes w (v / 256)

/-- `$type::from_le_bytes` for unsigned types: value of a byte list
read little-endian. -/
def leDecode : List Nat → Nat
  | [] => 0
  | b :: bs => b + 256 * leDecode bs

/-- Two's-complement reinterpretation of a `w`-byte unsigned value, as
`$type::from_le_bytes` performs for the signed types. -/
def asSigned (w : Nat) (n : Nat) : Int :=
  if n < 2 ^ (8 * w - 1) then (n : Int) else (n : Int) - 2 ^ (8 * w)

/-- Little-endian two's-complement encoding of a signed value,
`w` bytes wide: the byte pattern an `i32`/`i64` value occupies. -/
def twosComplementLe (w : Nat) (v : Int) : List Nat :=
  leBytes w (v % (2 ^ (8 * w))).toNat

namespace Process

/-- Body of the `define_number_read!` macro of src/lib.rs for the
unsigned types: a `bytes`-wide buffer filled by `read_bytes`, decoded
with `from_le_bytes`. -/
def read_le (rpm : Nat → Nat → Option (List Nat)) (bytes address : Nat) :
    Except MemoryReadError Nat :=
  match read_bytes rpm address bytes with
  | .error e => .error e
  | .ok data => .ok (leDecode data)

/-- Body of `define_number_read!` for the signed types: as `read_le`
but the decoded bytes are read as two's complement. -/
def read_le_signed (rpm : Nat → Nat → Option (List Nat)) (bytes address : Nat) :
    Except MemoryReadError Int :=
  match read_bytes rpm address bytes with
  | .error e => .error e
  | .ok data => .ok (asSigned bytes (leDecode data))

/-- src/lib.rs `define_number_read!(u32, read_u32, 4)`. -/
def read_u32 (rpm : Nat → Nat → Option (List Nat)) (address : Nat) :=
  read_le rpm 4 address

/-- src/lib.rs `define_number_read!(u64, read_u64, 8)`. -/
def read_u64 (rpm : Nat → Nat → Option (List Nat)) (address : Nat) :=
  read_le rpm 8 address

/-- src/lib.rs `define_number_read!(u128, read_u128, 16)`. -/
def read_u128 (rpm : Nat → Nat → Option (List Nat)) (address : Nat) :=
  read_le rpm 16 address

/-- src/lib.rs `define_number_read!(i32, read_i32, 4)`. -/
def read_i32 (rpm : Nat → Nat → Option (List Nat)) (address : Nat) :=
  read_le_signed rpm 4 address

/-- src/lib.rs `define_number_read!(i64, read_i64, 8)`. -/
def read_i64 (rpm : Nat → Nat → Option (List Nat)) (address : Nat) :=
  read_le_signed rpm 8 address

/-- src/lib.rs `define_number_read!(f32, read_f32, 4)`, modelled at
the bit level: `f32::from_le_bytes` is a bit-for-bit transmute of the
4-byte pattern, so the accessor is represented by the pattern it
returns; value equality of the float is pattern equality. -/
def read_f32 (rpm : Nat → Nat → Option (List Nat)) (address : Nat) :=
  read_le rpm 4 address

/-- src/lib.rs `define_number_read!(f64, read_f64, 8)`, modelled at
the bit level like `read_f32`. -/
def read_f64 (rpm : Nat → Nat → Option (List Nat)) (address : Nat) :=
  read_le rpm 8 address

end Process

/-- UTF-8 continuation byte test, `0x80..=0xBF`. -/
def contOK (b : Nat) : Bool :=
  128 ≤ b && b ≤ 191

/-- Admissible range of the second byte of a multi-byte UTF-8 sequence
headed by `b`, following the restricted ranges Rust's
`String::from_utf8` validation enforces (no overlong forms, no
surrogates, nothing above U+10FFFF). -/
def secondByteOK (b b1 : Nat) : Bool :=
  if b = 224 then 160 ≤ b1 && b1 ≤ 191
  else if b = 237 then 128 ≤ b1 && b1 ≤ 159
  else if b = 240 then 144 ≤ b1 && b1 ≤ 191
  else if b = 244 then 128 ≤ b1 && b1 ≤ 143
  else contOK b1

/-- UTF-8 decoding of a byte list into code points, with exactly the
sequences Rust's `String::from_utf8` accepts; `none` on any invalid
sequence. -/
def utf8Decode : List Nat → Option (List Nat)
  | [] => some []
  | b :: rest =>
    if b < 128 then (utf8Decode rest).map fun t => b :: t
    else if 194 ≤ b && b ≤ 223 then
      match rest with
      | b1 :: rest2 =>
        if contOK b1 then
          (utf8Decode rest2).map fun t => ((b - 192) * 64 + (b1 - 128)) :: t
        else none
      | [] => none
    else if 224 ≤ b && b ≤ 239 then
      match rest with
      | b1 :: b2 :: rest3 =>
        if secondByteOK b b1 && contOK b2 then
          (utf8Decode rest3).map fun t =>
            ((b - 224) * 4096 + (b1 - 128) * 64 + (b2 - 128)) :: t
        else none
      | _ => none
    else if 240 ≤ b && b ≤ 244 then
      match rest with
      | b1 :: b2 :: b3 :: rest4 =>
        if secondByteOK b b1 && contOK b2 && contOK b3 then
          (utf8Decode rest4).map fun t =>
            ((b - 240) * 262144 + (b1 - 128) * 4096 + (b2 - 128) * 64 +
              (b3 - 128)) :: t
        else none
      | _ => none
    else none

/-- src/lib.rs `String::from_utf8(buffer).unwrap_or(String::from(""))`:
the decoded string as its code-point list, or the empty string `[]`
when the bytes are not valid UTF-8. -/
def fromUtf8OrEmpty (bs : List Nat) : List Nat :=
  match utf8Decode bs with
  | none => []
  | some cps => cps

namespace Process

/-- Loop of src/lib.rs `Process::read_string`: read one byte at
`address + index`, propagate its error, stop on a zero byte returning
the accumulated buffer (the zero excluded), otherwise append
(`buffer.insert(index, ch)` with `index` always the buffer's length)
and continue. The Rust loop has no bound, so the model takes fuel and
returns `none` when it is exhausted. -/
def read_string_go (rpm : Nat → Nat → Option (List Nat)) (address : Nat) :
    Nat → Nat → List Nat → Option (Except MemoryReadError (List Nat))
  | 0, _, _ => none
  | fuel + 1, index, buffer =>
    match read_u8 rpm (address + index) with
    | .error e => some (.error e)
    | .ok ch =>
      if ch = 0 then some (.ok buffer)
      else read_string_go rpm address fuel (index + 1) (buffer ++ [ch])

/-- src/lib.rs `Process::read_string`: the byte loop from index 0 with
an empty buffer, then `String::from_utf8(buffer).unwrap_or("")`; the
resulting string is its code-point list. -/
def read_string (rpm : Nat → Nat → Option (List Nat)) (address fuel : Nat) :
    Option (Except MemoryReadError (List Nat)) :=
  (read_string_go rpm address fuel 0 []).map fun r => r.map fromUtf8OrEmpty

end Process

namespace Linux

/-- src/linux.rs `LinuxProcess::read_bytes`: one `process_vm_readv`
call with a single local/remote iovec pair of the buffer's length; a
`-1` return maps to `IOError` with the OS errno
(`IoError::last_os_error()`), a successful call returning fewer (or
other than) `len` bytes maps to `LessBytesRead`. -/
def read_bytes (pvr : Nat → Nat → Nat → Except Nat (List Nat))
    (pid address len : Nat) : Except MemoryReadError (List Nat) :=
  match pvr pid address len with
  | .error errno => .error (.IOError errno)
  | .ok data =>
    if data.length ≠ len then .error (.LessBytesRead len data.length)
    else .ok data

end Linux

/-- src/linux.rs `LinuxProcess`: the pid is the whole process handle. -/
structure LinuxProcess where
  pid : Nat
deriving DecidableEq, Repr

namespace Linux

/-- src/linux.rs `open_process`: unconditionally
`Some(LinuxProcess { pid })`; no OS call is made and no existence or
permission check happens. -/
def open_process (pid : Nat) : Option LinuxProcess :=
  some { pid }

end Linux

/-- Rust `char::is_whitespace`: the Unicode `White_Space` code points. -/
def isWhitespaceChar (c : Char) : Bool :=
  let n := c.toNat
  (9 ≤ n && n ≤ 13) || n = 32 || n = 133 || n = 160 || n = 5760 ||
    (8192 ≤ n && n ≤ 8202) || n = 8232 || n = 8233 || n = 8239 ||
    n = 8287 || n = 12288

/-- Rust `str::trim`: the string with leading and trailing whitespace
removed. -/
def trimL (s : List Char) : List Char :=
  ((s.dropWhile isWhitespaceChar).reverse.dropWhile isWhitespaceChar).reverse

/-- Rust `str::ends_with(suffix)` for string suffixes. -/
def endsWithL (s suffix : List Char) : Bool :=
  suffix.length ≤ s.length && s.drop (s.length - suffix.length) == suffix

/-- Rust ASCII digit test, as `str::parse` on integer types uses. -/
def isDigitChar (c : Char) : Bool :=
  48 ≤ c.toNat && c.toNat ≤ 57

/-- Rust `str::parse::<u32>()`: an optional leading `+`, then a
nonempty run of decimal digits, rejected when the value overflows
`u32`. -/
def parseU32 (s : List Char) : Option Nat :=
  let digits := match s with
    | '+' :: rest => rest
    | _ => s
  if digits.isEmpty then none
  else if digits.all isDigitChar then
    let n := digits.foldl (fun a c => 10 * a + (c.toNat - 48)) 0
    if n < 2 ^ 32 then some n else none
  else none

/-- Value of a hexadecimal digit, for `usize::from_str_radix(_, 16)`. -/
def hexDigitVal (c : Char) : Option Nat :=
  if isDigitChar c then some (c.toNat - 48)
  else if 97 ≤ c.toNat ∧ c.toNat ≤ 102 then some (c.toNat - 87)
  else if 65 ≤ c.toNat ∧ c.toNat ≤ 70 then some (c.toNat - 55)
  else none

/-- Rust `usize::from_str_radix(s, 16)`: an optional leading `+`, then
a nonempty run of hexadecimal digits, rejected on `usize` overflow. -/
def parseHexUsize (s : List Char) : Option Nat :=
  let digits := match s with
    | '+' :: rest => rest
    | _ => s
  if digits.isEmpty then none
  else
    (digits.foldl
      (fun acc c => acc.bind fun a => (hexDigitVal c).map fun d => 16 * a + d)
      (some 0)).bind
      fun n => if n < 2 ^ 64 then some n else none

/-- One `/proc` directory entry as src/linux.rs `find_by_name`
consumes it: `fileName` is the directory entry's name, `maps` the
result of opening `<entry>/maps` and reading its first line —
`none` when `File::open` fails (the entry is skipped), `some (.error
errno)` when `read_line` fails (propagated by `?`), `some (.ok line)`
the first line. Entries whose `DirEntry` result is `Err` are skipped
by the `if let` and not modelled; `file_name().to_str()` is total on
this string model. -/
structure ProcEntry where
  fileName : List Char
  maps : Option (Except Nat (List Char))
deriving DecidableEq, Repr

/-- Outcome of src/linux.rs `find_by_name`: a pid list on success, a
propagated I/O error, or an abnormal termination — the
`pid_name.parse::<u32>().unwrap()` panic on a non-numeric entry name. -/
inductive FindResult where
  | ok (pids : List Nat)
  | ioError (errno : Nat)
  | panicked
deriving DecidableEq, Repr

namespace Linux

/-- Loop body of src/linux.rs `find_by_name` over the remaining
`/proc` entries. A matching first line leads to
`parse::<u32>().unwrap()` on the entry name (panic when it is not a
`u32`) and then `open_process(pid).map(push)`, which always pushes
since `open_process` is total; the vector accumulation is modelled by
prepending on return. -/
def find_go (name : List Char) : List ProcEntry → FindResult
  | [] => .ok []
  | e :: rest =>
    match e.maps with
    | none => find_go name rest
    | some (.error errno) => .ioError errno
    | some (.ok line) =>
      if endsWithL (trimL line) name then
        match parseU32 e.fileName with
        | none => .panicked
        | some pid =>
          match find_go name rest with
          | .ok pids => .ok (pid :: pids)
          | other => other
      else find_go name rest

/-- src/linux.rs `find_by_name`: `read_dir("/proc")?` — a failing
directory read is returned as the I/O error — then the entry loop. -/
def find_by_name (procDir : Except Nat (List ProcEntry)) (name : List Char) :
    FindResult :=
  match procDir with
  | .error errno => .ioError errno
  | .ok entries => find_go name entries

/-- Loop body of src/linux.rs `LinuxProcess::base_address` over the
lines of `/proc/<pid>/maps`; each line carries its `reader.lines()`
result and `Err` lines are skipped by the `if let`. On the first line
whose trimmed text ends with the module name, the text before the
first `-` (`split("-")` element 0) is hex-parsed and that `Option` is
returned directly — scanning does not continue past a parse failure. -/
def base_address_go (module_name : List Char) :
    List (Except Nat (List Char)) → Option Nat
  | [] => none
  | .error _ :: rest => base_address_go module_name rest
  | .ok line :: rest =>
    if endsWithL (trimL line) module_name then
      parseHexUsize (line.takeWhile fun c => c ≠ '-')
    else base_address_go module_name rest

/-- src/linux.rs `LinuxProcess::base_address`: `File::open` of
`/proc/<pid>/maps` (`.ok()?` turns a failure into `none`), then the
line scan. -/
def base_address (mapsFile : Option (List (Except Nat (List Char))))
    (module_name : List Char) : Option Nat :=
  match mapsFile with
  | none => none
  | some lines => base_address_go module_name lines

end Linux

/-- Whether one `reader.lines()` result is a readable line whose
trimmed text ends with the module name — the condition
`Linux.base_address_go` selects its line by (an `Err` line never
matches, it is skipped). -/
def lineMatches (module_name : List Char) : Except Nat (List Char) → Bool
  | .error _ => false
  | .ok line => endsWithL (trimL line) module_name

/-- Whether a `/proc` entry is passed over by `Linux.find_go` without
effect: its maps file fails to open, or its first line is readable and
does not end with the query name. -/
def entryNoMatch (name : List Char) (e : ProcEntry) : Bool :=
  match e.maps with
  | none => true
  | some (.error _) => false
  | some (.ok line) => !(endsWithL (trimL line) name)

/-- Whether a `/proc` entry is traversed by `Linux.find_go` without
stopping the scan: its maps file fails to open, its first line is
readable but does not match, or it matches and its directory name
parses as a `u32` (so the entry only pushes a pid). An entry with a
failing first-line read, or a matching entry with a non-numeric name,
is excluded — those end the scan with an error or a panic. -/
def entryScansClean (name : List Char) (e : ProcEntry) : Bool :=
  match e.maps with
  | none => true
  | some (.error _) => false
  | some (.ok line) =>
    if endsWithL (trimL line) name then (parseU32 e.fileName).isSome
    else true

/-- Rust `str::to_lowercase` restricted to its ASCII action, and
represented by the code points of the lowercased string (the crate
compares the two lowercased strings for equality, which on this
representation is `List Nat` equality). -/
def toLowercase (s : List Char) : List Nat :=
  s.map fun c =>
    if 65 ≤ c.toNat ∧ c.toNat ≤ 90 then c.toNat + 32 else c.toNat

/-- One module as the handle-based backend sees it: its `HMODULE`
value (the load base address) and the short base name
`GetModuleBaseNameA` reports for it (after `from_utf8_lossy`). -/
structure WinModule where
  hmod : Nat
  baseName : List Char
deriving DecidableEq, Repr

namespace Win

/-- src/lib.rs `Process::base_address` (identically src/windows.rs):
`EnumProcessModules` is called with room for a single `HMODULE`
(`size_of_val(&maybe_hmod)`), so of the target's module list only the
first entry is retrieved; `none` models a FALSE return of the call.
The one retrieved module's base name is compared, lowercased, against
the lowercased `module_name`; on a match its `HMODULE` is the result,
otherwise the result is `none` — later modules are never examined. -/
def base_address (enumResult : Option (List WinModule))
    (module_name : List Char) : Option Nat :=
  match enumResult with
  | none => none
  | some [] => none
  | some (m :: _) =>
    if toLowercase m.baseName == toLowercase module_name then some m.hmod
    else none

end Win

/-- What the spec's words for the handle-based `base_address` describe,
for comparison with `Win.base_address`: the base address of the first
module of the enumeration whose short base name equals the query
case-insensitively. -/
def specFirstMatchBase (modules : List WinModule) (module_name : List Char) :
    Option Nat :=
  (modules.find? fun m => toLowercase m.baseName == toLowercase module_name).map
    WinModule.hmod

/-- One `PROCESSENTRY32W` as src/lib.rs `Process::find_by_name`
consumes it: the `szExeFile` UTF-16 buffer and `th32ProcessID`. -/
structure SnapEntry where
  szExeFile : List Nat
  th32ProcessID : Nat
deriving DecidableEq, Repr

/-- The process name taken from `szExeFile`: the code units before the
first 0 (`take_while(|&&c| c != 0)` then `OsString::from_wide`). -/
def entryName (e : SnapEntry) : List Nat :=
  e.szExeFile.takeWhile fun c => c ≠ 0

namespace Win

/-- `Process32NextW` loop of src/lib.rs `Process::find_by_name`
(identically src/windows.rs): each entry whose name differs from the
query is skipped by `continue`; for a matching entry
`Process::open_process(entry.th32ProcessID)` is tried
(`openProcess : pid → Option handle` models `OpenProcess` returning
null or a handle) and a successful open is pushed; the vector
accumulation is modelled by prepending on return. -/
def find_go (openProcess : Nat → Option Nat) (name : List Nat) :
    List SnapEntry → List Nat
  | [] => []
  | e :: rest =>
    if entryName e ≠ name then find_go openProcess name rest
    else
      match openProcess e.th32ProcessID with
      | some h => h :: find_go openProcess name rest
      | none => find_go openProcess name rest

/-- src/lib.rs `Process::find_by_name` (identically src/windows.rs):
`none` models a null `CreateToolhelp32Snapshot` handle (empty result);
`Process32FirstW` retrieves the snapshot's first entry — or fails on
an empty snapshot, skipping the loop — and the `while` loop then
starts with `Process32NextW`, so the first entry itself is never
compared or opened. -/
def find_by_name (snapshot : Option (List SnapEntry))
    (openProcess : Nat → Option Nat) (name : List Nat) : List Nat :=
  match snapshot with
  | none => []
  | some [] => []
  | some (_first :: rest) => find_go openProcess name rest

/-- src/lib.rs `Process::open_process` (identically src/windows.rs):
`OpenProcess(PROCESS_VM_READ | PROCESS_QUERY_INFORMATION, 0, pid)`,
`None` exactly when the returned handle is null —
`openProcess : pid → Option handle` models the OS call, returning
`none` whenever the OS denies access or the pid does not exist. -/
def open_process (openProcess : Nat → Option Nat) (pid : Nat) : Option Nat :=
  match openProcess pid with
  | none => none
  | some handle => some handle

end Win

/-! Helper lemmas. -/

theorem read_u8_of_byte {rpm : Nat → Nat → Option (List Nat)} {address b : Nat}
    (h : rpm address 1 = some [b]) : Process.read_u8 rpm address = .ok b := by
  simp [Process.read_u8, Process.read_bytes, h]

theorem read_u8_of_read_bytes_error {rpm : Nat → Nat → Option (List Nat)}
    {address : Nat} {e : MemoryReadError}
    (h : Process.read_bytes rpm address 1 = .error e) :
    Process.read_u8 rpm address = .error e := by
  simp [Process.read_u8, h]

theorem leBytes_length (w v : Nat) : (leBytes w v).length = w := by
  induction w generalizing v with
  | zero => rfl
  | succ w ih => simp [leBytes, ih]

theorem leDecode_leBytes {w v : Nat} (h : v < 2 ^ (8 * w)) :
    leDecode (leBytes w v) = v := by
  induction w generalizing v with
  | zero =>
    simp [leBytes, leDecode]
    omega
  | succ w ih =>
    have hdiv : v / 256 < 2 ^ (8 * w) := by
      have h256 : (256 : Nat) = 2 ^ 8 := by norm_num
      have : v < 2 ^ (8 * w) * 256 := by
        calc v < 2 ^ (8 * (w + 1)) := h
        _ = 2 ^ (8 * w) * 2 ^ 8 := by rw [← pow_add]; ring_nf
        _ = 2 ^ (8 * w) * 256 := by norm_num
      omega
    simp [leBytes, leDecode, ih hdiv]
    omega

theorem read_le_of_bytes {rpm : Nat → Nat → Option (List Nat)}
    {w address v : Nat} (hv : v < 2 ^ (8 * w))
    (h : rpm address w = some (leBytes w v)) :
    Process.read_le rpm w address = .ok v := by
  simp [Process.read_le, Process.read_bytes, h, leBytes_length,
    leDecode_leBytes hv]

theorem read_le_signed_of_bytes {rpm : Nat → Nat → Option (List Nat)}
    {w address : Nat} {v : Int}
    (h : rpm address w = some (twosComplementLe w v)) :
    Process.read_le_signed rpm w address =
      .ok (asSigned w (v % (2 ^ (8 * w))).toNat) := by
  have hm : (v % ((2 : Int) ^ (8 * w))).toNat < 2 ^ (8 * w) := by
    have h0 : (0 : Int) < 2 ^ (8 * w) := by positivity
    have h1 := Int.emod_lt_of_pos v h0
    have h2 := Int.emod_nonneg v (ne_of_gt h0)
    have h3 : ((v % (2 : Int) ^ (8 * w)).toNat : Int) < (2 : Int) ^ (8 * w) := by
      rw [Int.toNat_of_nonneg h2]
      exact h1
    exact_mod_cast h3
  simp [Process.read_le_signed, Process.read_bytes, h, twosComplementLe,
    leBytes_length, leDecode_leBytes hm]

theorem asSigned_four {v : Int} (h1 : -(2 ^ 31) ≤ v) (h2 : v < 2 ^ 31) :
    asSigned 4 (v % (2 ^ (8 * 4))).toNat = v := by
  simp only [asSigned]
  norm_num
  split
  · omega
  · omega

theorem asSigned_eight {v : Int} (h1 : -(2 ^ 63) ≤ v) (h2 : v < 2 ^ 63) :
    asSigned 8 (v % (2 ^ (8 * 8))).toNat = v := by
  simp only [asSigned]
  norm_num
  split
  · omega
  · omega

theorem read_string_go_ok (bs : List Nat) :
    ∀ (rpm : Nat → Nat → Option (List Nat)) (address index : Nat)
      (acc : List Nat) (fuel : Nat),
      (∀ i (h : i < bs.length),
        rpm (address + index + i) 1 = some [bs.get ⟨i, h⟩] ∧
          bs.get ⟨i, h⟩ ≠ 0) →
      rpm (address + index + bs.length) 1 = some [0] →
      bs.length < fuel →
      Process.read_string_go rpm address fuel index acc = some (.ok (acc ++ bs)) := by
  induction bs with
  | nil =>
    intro rpm address index acc fuel _ hz hfuel
    cases fuel with
    | zero => omega
    | succ f =>
      have hz' : rpm (address + index) 1 = some [0] := by simpa using hz
      simp [Process.read_string_go, read_u8_of_byte hz']
  | cons b bs ih =>
    intro rpm address index acc fuel hok hz hfuel
    cases fuel with
    | zero => omega
    | succ f =>
      have hb := hok 0 (by simp)
      have hb' : rpm (address + index) 1 = some [b] := by
        simpa using hb.1
      have hbnz : b ≠ 0 := by simpa using hb.2
      have hrec := ih rpm address (index + 1) (acc ++ [b]) f
        (fun i h => by
          have := hok (i + 1) (by simpa using Nat.succ_lt_succ h)
          constructor
          · have heq : address + index + (i + 1) = address + (index + 1) + i := by
              omega
            simpa [heq] using this.1
          · simpa using this.2)
        (by
          have heq : address + index + (b :: bs).length =
              address + (index + 1) + bs.length := by
            simp
            omega
          rw [← heq]; exact hz)
        (by simpa using Nat.lt_of_succ_lt_succ hfuel)
      simp [Process.read_string_go, read_u8_of_byte hb', hbnz, hrec]

theorem read_string_go_error (bs : List Nat) :
    ∀ (rpm : Nat → Nat → Option (List Nat)) (address index : Nat)
      (acc : List Nat) (fuel : Nat) (e : MemoryReadError),
      (∀ i (h : i < bs.length),
        rpm (address + index + i) 1 = some [bs.get ⟨i, h⟩] ∧
          bs.get ⟨i, h⟩ ≠ 0) →
      Process.read_bytes rpm (address + index + bs.length) 1 = .error e →
      bs.length < fuel →
      Process.read_string_go rpm address fuel index acc = some (.error e) := by
  induction bs with
  | nil =>
    intro rpm address index acc fuel e _ he hfuel
    cases fuel with
    | zero => omega
    | succ f =>
      have he' : Process.read_bytes rpm (address + index) 1 = .error e := by
        simpa using he
      simp [Process.read_string_go, read_u8_of_read_bytes_error he']
  | cons b bs ih =>
    intro rpm address index acc fuel e hok he hfuel
    cases fuel with
    | zero => omega
    | succ f =>
      have hb := hok 0 (by simp)
      have hb' : rpm (address + index) 1 = some [b] := by
        simpa using hb.1
      have hbnz : b ≠ 0 := by simpa using hb.2
      have hrec := ih rpm address (index + 1) (acc ++ [b]) f e
        (fun i h => by
          have := hok (i + 1) (by simpa using Nat.succ_lt_succ h)
          constructor
          · have heq : address + index + (i + 1) = address + (index + 1) + i := by
              omega
            simpa [heq] using this.1
          · simpa using this.2)
        (by
          have heq : address + index + (b :: bs).length =
              address + (index + 1) + bs.length := by
            simp
            omega
          rw [← heq]; exact he)
        (by simpa using Nat.lt_of_succ_lt_succ hfuel)
      simp [Process.read_string_go, read_u8_of_byte hb', hbnz, hrec]

theorem win_find_go_no_match {openProcess : Nat → Option Nat} {name : List Nat} :
    ∀ {l : List SnapEntry}, (∀ e ∈ l, entryName e ≠ name) →
      Win.find_go openProcess name l = [] := by
  intro l
  induction l with
  | nil => intro _; rfl
  | cons e rest ih =>
    intro hn
    have he : entryName e ≠ name := hn e (by simp)
    simp [Win.find_go, he, ih fun e' h' => hn e' (by simp [h'])]

theorem win_find_go_mem {openProcess : Nat → Option Nat} {name : List Nat} :
    ∀ {l : List SnapEntry} {h : Nat}, h ∈ Win.find_go openProcess name l →
      ∃ e, e ∈ l ∧ entryName e = name ∧ openProcess e.th32ProcessID = some h := by
  intro l
  induction l with
  | nil => intro h hmem; simp [Win.find_go] at hmem
  | cons e rest ih =>
    intro h hmem
    by_cases hne : entryName e ≠ name
    · simp [Win.find_go, hne] at hmem
      obtain ⟨e', he', hprop⟩ := ih hmem
      exact ⟨e', by simp [he'], hprop⟩
    · push_neg at hne
      cases hop : openProcess e.th32ProcessID with
      | none =>
        simp [Win.find_go, hne, hop] at hmem
        obtain ⟨e', he', hprop⟩ := ih hmem
        exact ⟨e', by simp [he'], hprop⟩
      | some h0 =>
        simp [Win.find_go, hne, hop] at hmem
        cases hmem with
        | inl heq => exact ⟨e, by simp, hne, by rw [hop, heq]⟩
        | inr hmem' =>
          obtain ⟨e', he', hprop⟩ := ih hmem'
          exact ⟨e', by simp [he'], hprop⟩

theorem linux_find_go_no_match {name : List Char} :
    ∀ {l : List ProcEntry},
      (∀ e ∈ l, entryNoMatch name e = true) →
      Linux.find_go name l = .ok [] := by
  intro l
  induction l with
  | nil => intro _; rfl
  | cons e rest ih =>
    intro hnm
    have ihrec := ih fun e' h' => hnm e' (by simp [h'])
    have he := hnm e (by simp)
    cases hm : e.maps with
    | none => simp [Linux.find_go, hm, ihrec]
    | some r =>
      cases r with
      | error errno => simp [entryNoMatch, hm] at he
      | ok line =>
        rw [entryNoMatch, hm] at he
        simp at he
        simp [Linux.find_go, hm, he, ihrec]

theorem linux_find_go_error_propagates {name : List Char} {e : ProcEntry}
    {rest : List ProcEntry} {errno : Nat} :
    ∀ {pre : List ProcEntry},
      (∀ e' ∈ pre, entryScansClean name e' = true) →
      e.maps = some (.error errno) →
      Linux.find_go name (pre ++ e :: rest) = .ioError errno := by
  intro pre
  induction pre with
  | nil =>
    intro _ hm
    simp [Linux.find_go, hm]
  | cons e' pre' ih =>
    intro hclean hm
    have ihrec := ih (fun e'' h'' => hclean e'' (by simp [h''])) hm
    have he' := hclean e' (by simp)
    cases hm' : e'.maps with
    | none => simp [Linux.find_go, hm', ihrec]
    | some r =>
      cases r with
      | error errno' => simp [entryScansClean, hm'] at he'
      | ok line =>
        by_cases hmatch : endsWithL (trimL line) name = true
        · have hsome : (parseU32 e'.fileName).isSome = true := by
            simp [entryScansClean, hm', hmatch] at he'
            exact he'
          obtain ⟨pid, hp⟩ := Option.isSome_iff_exists.mp hsome
          simp [Linux.find_go, hm', hmatch, hp, ihrec]
        · simp at hmatch
          simp [Linux.find_go, hm', hmatch, ihrec]

theorem linux_base_go_no_match {module_name : List Char} :
    ∀ {lines : List (Except Nat (List Char))},
      (∀ l ∈ lines, lineMatches module_name l = false) →
      Linux.base_address_go module_name lines = none := by
  intro lines
  induction lines with
  | nil => intro _; rfl
  | cons l rest ih =>
    intro hn
    have ihrec := ih fun l' h' => hn l' (by simp [h'])
    cases l with
    | error errno => simp [Linux.base_address_go, ihrec]
    | ok s =>
      have := hn (.ok s) (by simp)
      rw [lineMatches] at this
      simp [Linux.base_address_go, this, ihrec]

theorem linux_base_go_first_match {module_name line : List Char}
    {post : List (Except Nat (List Char))} :
    ∀ {pre : List (Except Nat (List Char))},
      (∀ l ∈ pre, lineMatches module_name l = false) →
      endsWithL (trimL line) module_name = true →
      Linux.base_address_go module_name (pre ++ .ok line :: post) =
        parseHexUsize (line.takeWhile fun c => c ≠ '-') := by
  intro pre
  induction pre with
  | nil =>
    intro _ hmatch
    simp [Linux.base_address_go, hmatch]
  | cons l rest ih =>
    intro hn hmatch
    have ihrec := ih (fun l' h' => hn l' (by simp [h'])) hmatch
    cases l with
    | error errno => simp [Linux.base_address_go, ihrec]
    | ok s =>
      have := hn (.ok s) (by simp)
      rw [lineMatches] at this
      simp [Linux.base_address_go, this, ihrec]

/-! Claim theorems. -/

/-- C1: for every memory model, address and requested length,
`read_bytes` on either backend returns exactly the requested number of
bytes or a structured error, never a silently-partial result; on the
handle-based backend a failing call yields
`InaccessibleMemoryAddress{address}` and a successful but short call
yields `LessBytesRead{expected, actual}`, and on the syscall-based
backend a failing call yields `IOError` with the OS cause and a short
non-failing call yields `LessBytesRead{expected, actual}`. -/
theorem C1_read_bytes_exact_or_error
    (rpm : Nat → Nat → Option (List Nat))
    (pvr : Nat → Nat → Nat → Except Nat (List Nat)) (pid address len : Nat) :
    ((∃ data, Process.read_bytes rpm address len = .ok data ∧
        data.length = len) ∨
      (rpm address len = none ∧
        Process.read_bytes rpm address len =
          .error (.InaccessibleMemoryAddress address)) ∨
      (∃ data, rpm address len = some data ∧ data.length ≠ len ∧
        Process.read_bytes rpm address len =
          .error (.LessBytesRead len data.length))) ∧
    ((∃ data, Linux.read_bytes pvr pid address len = .ok data ∧
        data.length = len) ∨
      (∃ errno, pvr pid address len = .error errno ∧
        Linux.read_bytes pvr pid address len = .error (.IOError errno)) ∨
      (∃ data, pvr pid address len = .ok data ∧ data.length ≠ len ∧
        Linux.read_bytes pvr pid address len =
          .error (.LessBytesRead len data.length))) := by
  constructor
  · match h : rpm address len with
    | none =>
      exact Or.inr (Or.inl ⟨rfl, by simp [Process.read_bytes, h]⟩)
    | some data =>
      by_cases hl : data.length = len
      · exact Or.inl ⟨data, by simp [Process.read_bytes, h, hl], hl⟩
      · exact Or.inr (Or.inr ⟨data, rfl, hl,
          by simp [Process.read_bytes, h, hl]⟩)
  · match h : pvr pid address len with
    | .error errno =>
      exact Or.inr (Or.inl ⟨errno, rfl, by simp [Linux.read_bytes, h]⟩)
    | .ok data =>
      by_cases hl : data.length = len
      · exact Or.inl ⟨data, by simp [Linux.read_bytes, h, hl], hl⟩
      · exact Or.inr (Or.inr ⟨data, rfl, hl,
          by simp [Linux.read_bytes, h, hl]⟩)

/-- C2 evaluated on the code: the syscall-based backend's
`open_process` never probes the OS and returns a handle for every pid,
including ids (such as 0 and the maximal `u32`) that cannot name a
running process — contradicting the claim (and the function's own doc
comment) that an id without a corresponding process yields absent. -/
theorem C2_linux_open_always_some :
    Linux.open_process 4294967295 = some ⟨4294967295⟩ ∧
      Linux.open_process 0 = some ⟨0⟩ :=
  ⟨rfl, rfl⟩

/-- C7: for every memory model whose byte at the address is `b`,
`read_bool` reads that one byte and returns `b = 1`: `true` exactly
when the byte equals 1, `false` for every other value. -/
theorem C7_read_bool_eq_one (rpm : Nat → Nat → Option (List Nat))
    (address b : Nat) (h : rpm address 1 = some [b]) :
    Process.read_bool rpm address = .ok (decide (b = 1)) ∧
      (Process.read_bool rpm address = .ok true ↔ b = 1) := by
  have hu := read_u8_of_byte h
  by_cases hb : b = 1
  · subst hb
    simp [Process.read_bool, hu]
  · constructor
    · simp [Process.read_bool, hu, hb]
    · constructor
      · intro hcontra
        simp [Process.read_bool, hu, hb] at hcontra
      · intro hcontra
        exact absurd hcontra hb

/-- C7 witness: a memory holding the byte 255 makes `read_bool` return
`false`, not `true`. -/
theorem C7_read_bool_witness :
    Process.read_bool (fun _ _ => some [255]) 5 = .ok false := by
  have h := (C7_read_bool_eq_one (fun _ _ => some [255]) 5 255 rfl).1
  have hd : (decide ((255 : Nat) = 1)) = false := by decide
  rw [hd] at h
  exact h

/-- C8: round-trip of every fixed-width typed accessor: when the
memory at the address holds the little-endian encoding of a value of
the type, the matching accessor requests exactly the type's byte width
and returns the original value — `u8`, `u32`, `u64`, `u128` and the
two's-complement `i32`, `i64`; `f32`/`f64` are `from_le_bytes` bit
transmutes and recover the original 4- resp. 8-byte pattern exactly. -/
theorem C8_le_round_trip :
    (∀ (rpm : Nat → Nat → Option (List Nat)) (address b : Nat),
      rpm address 1 = some [b] → Process.read_u8 rpm address = .ok b) ∧
    (∀ (rpm : Nat → Nat → Option (List Nat)) (address v : Nat), v < 2 ^ 32 →
      rpm address 4 = some (leBytes 4 v) →
      Process.read_u32 rpm address = .ok v) ∧
    (∀ (rpm : Nat → Nat → Option (List Nat)) (address v : Nat), v < 2 ^ 64 →
      rpm address 8 = some (leBytes 8 v) →
      Process.read_u64 rpm address = .ok v) ∧
    (∀ (rpm : Nat → Nat → Option (List Nat)) (address v : Nat), v < 2 ^ 128 →
      rpm address 16 = some (leBytes 16 v) →
      Process.read_u128 rpm address = .ok v) ∧
    (∀ (rpm : Nat → Nat → Option (List Nat)) (address : Nat) (v : Int),
      -(2 ^ 31) ≤ v → v < 2 ^ 31 →
      rpm address 4 = some (twosComplementLe 4 v) →
      Process.read_i32 rpm address = .ok v) ∧
    (∀ (rpm : Nat → Nat → Option (List Nat)) (address : Nat) (v : Int),
      -(2 ^ 63) ≤ v → v < 2 ^ 63 →
      rpm address 8 = some (twosComplementLe 8 v) →
      Process.read_i64 rpm address = .ok v) ∧
    (∀ (rpm : Nat → Nat → Option (List Nat)) (address v : Nat), v < 2 ^ 32 →
      rpm address 4 = some (leBytes 4 v) →
      Process.read_f32 rpm address = .ok v) ∧
    (∀ (rpm : Nat → Nat → Option (List Nat)) (address v : Nat), v < 2 ^ 64 →
      rpm address 8 = some (leBytes 8 v) →
      Process.read_f64 rpm address = .ok v) := by
  refine ⟨?_, ?_, ?_, ?_, ?_, ?_, ?_, ?_⟩
  · intro rpm address b h
    exact read_u8_of_byte h
  · intro rpm address v hv h
    exact read_le_of_bytes (by norm_num; exact hv) h
  · intro rpm address v hv h
    exact read_le_of_bytes (by norm_num; exact hv) h
  · intro rpm address v hv h
    exact read_le_of_bytes (by norm_num; exact hv) h
  · intro rpm address v h1 h2 h
    rw [Process.read_i32, read_le_signed_of_bytes h]
    rw [asSigned_four h1 h2]
  · intro rpm address v h1 h2 h
    rw [Process.read_i64, read_le_signed_of_bytes h]
    rw [asSigned_eight h1 h2]
  · intro rpm address v hv h
    exact read_le_of_bytes (by norm_num; exact hv) h
  · intro rpm address v hv h
    exact read_le_of_bytes (by norm_num; exact hv) h

/-- C8 witness: the 4-byte little-endian buffer `[0x01,0x00,0x00,0x00]`
decoded via the u32 accessor yields 1, and the buffer
`[0xFE,0xFF,0xFF,0xFF]` via the i32 accessor yields -2. -/
theorem C8_le_round_trip_witness :
    Process.read_u32 (fun _ _ => some [1, 0, 0, 0]) 0 = .ok 1 ∧
      Process.read_i32 (fun _ _ => some [254, 255, 255, 255]) 0 = .ok (-2) := by
  constructor
  · exact C8_le_round_trip.2.1 (fun _ _ => some [1, 0, 0, 0]) 0 1
      (by norm_num) (by decide)
  · exact C8_le_round_trip.2.2.2.2.1 (fun _ _ => some [254, 255, 255, 255]) 0
      (-2) (by norm_num) (by norm_num) (by decide)

/-- C9 evaluated on the code: `find_by_name` of the syscall-based
backend panics (`parse::<u32>().unwrap()`) on a `/proc` directory
entry whose name is not a numeric pid once that entry's first maps
line matches the query — here the entry named `self`, whose maps file
every live system exposes — instead of completing normally as the
claim requires. -/
theorem C9_linux_find_by_name_panics :
    Linux.find_by_name
      (.ok [{ fileName := chars "self",
              maps := some (.ok
                (chars "55e0-55e4 r-xp 00000000 00:00 0 /usr/bin/bash")) }])
      (chars "bash") = .panicked := by
  decide

/-- C3 refuted at a concrete input: on the syscall-based backend an
unavailable process-list directory (a failing `read_dir("/proc")`,
here with errno 13) makes `find_by_name` return an I/O error, not the
empty sequence the claim promises. -/
theorem C3_counterexample :
    Linux.find_by_name (.error 13) (chars "bash") = .ioError 13 ∧
      FindResult.ioError 13 ≠ .ok [] := by
  decide

/-- C3 amended: the handle-based `find_by_name` indeed never errors —
an unavailable snapshot or an absence of matches yields the empty
sequence, and a matching process that fails to open is skipped — and
on the syscall-based backend an absence of matches yields the empty
`Ok` sequence; but an unavailable process-list directory, and equally
a failing first-line read of an entry's maps file reached by the scan,
is propagated as an I/O error rather than an empty sequence. -/
theorem C3_find_by_name_amended :
    (∀ (op : Nat → Option Nat) (name : List Nat),
      Win.find_by_name none op name = []) ∧
    (∀ (entries : List SnapEntry) (op : Nat → Option Nat) (name : List Nat),
      (∀ e ∈ entries, entryName e ≠ name) →
      Win.find_by_name (some entries) op name = []) ∧
    (∀ (op : Nat → Option Nat) (name : List Nat) (e : SnapEntry)
      (rest : List SnapEntry), op e.th32ProcessID = none →
      Win.find_go op name (e :: rest) = Win.find_go op name rest) ∧
    (∀ (errno : Nat) (name : List Char),
      Linux.find_by_name (.error errno) name = .ioError errno) ∧
    (∀ (entries : List ProcEntry) (name : List Char),
      (∀ e ∈ entries, entryNoMatch name e = true) →
      Linux.find_by_name (.ok entries) name = .ok []) ∧
    (∀ (pre : List ProcEntry) (e : ProcEntry) (rest : List ProcEntry)
      (errno : Nat) (name : List Char),
      (∀ e' ∈ pre, entryScansClean name e' = true) →
      e.maps = some (.error errno) →
      Linux.find_by_name (.ok (pre ++ e :: rest)) name = .ioError errno) := by
  refine ⟨?_, ?_, ?_, ?_, ?_, ?_⟩
  · intro op name
    rfl
  · intro entries op name hn
    cases entries with
    | nil => rfl
    | cons first rest =>
      exact win_find_go_no_match fun e he => hn e (by simp [he])
  · intro op name e rest hop
    by_cases hne : entryName e ≠ name
    · simp [Win.find_go, hne]
    · simp [Win.find_go, hne, hop]
  · intro errno name
    rfl
  · intro entries name hnm
    exact linux_find_go_no_match hnm
  · intro pre e rest errno name hclean hm
    exact linux_find_go_error_propagates hclean hm

/-- C3 amended, witness: a snapshot without matches yields `[]` on the
handle-based backend; a `/proc` directory without matches yields
`Ok([])` on the syscall-based backend; and a `/proc` directory whose
third entry's first-line read fails with errno 5 — after one matching
and one non-matching entry — yields the I/O error, not an empty
sequence. -/
theorem C3_find_by_name_amended_witness :
    Win.find_by_name (some [⟨[98, 0], 7⟩, ⟨[120], 8⟩])
        (fun p => some p) [99] = [] ∧
      Linux.find_by_name
        (.ok [{ fileName := chars "1",
                maps := some (.ok (chars "aa-bb r-xp 0 /usr/bin/emacs")) },
              { fileName := chars "self", maps := none }])
        (chars "bash") = .ok [] ∧
      Linux.find_by_name
        (.ok [{ fileName := chars "7",
                maps := some (.ok (chars "aa-bb r-xp 0 /usr/bin/bash")) },
              { fileName := chars "9",
                maps := some (.ok (chars "cc-dd r-xp 0 /usr/bin/emacs")) },
              { fileName := chars "12", maps := some (.error 5) }])
        (chars "bash") = .ioError 5 := by
  refine ⟨?_, ?_, ?_⟩
  · exact C3_find_by_name_amended.2.1 [⟨[98, 0], 7⟩, ⟨[120], 8⟩]
      (fun p => some p) [99] (by decide)
  · exact C3_find_by_name_amended.2.2.2.2.1
      [{ fileName := chars "1",
         maps := some (.ok (chars "aa-bb r-xp 0 /usr/bin/emacs")) },
       { fileName := chars "self", maps := none }]
      (chars "bash") (by decide)
  · exact C3_find_by_name_amended.2.2.2.2.2
      [{ fileName := chars "7",
         maps := some (.ok (chars "aa-bb r-xp 0 /usr/bin/bash")) },
       { fileName := chars "9",
         maps := some (.ok (chars "cc-dd r-xp 0 /usr/bin/emacs")) }]
      { fileName := chars "12", maps := some (.error 5) } [] 5
      (chars "bash") (by decide) (by decide)

/-- C4 refuted at a concrete input: with a module list whose second
entry is the only case-insensitive match, the code returns `none`
while the claimed first-matching-module rule would return that
entry's base address — the code inspects only the first enumerated
module. -/
theorem C4_counterexample :
    Win.base_address
        (some [⟨4096, chars "a.dll"⟩, ⟨8192, chars "B.dll"⟩])
        (chars "b.dll") = none ∧
      specFirstMatchBase [⟨4096, chars "a.dll"⟩, ⟨8192, chars "B.dll"⟩]
        (chars "b.dll") = some 8192 := by
  decide

/-- C4 amended: the handle-based `base_address` retrieves only the
first module of the enumeration (the call passes room for a single
`HMODULE`); it returns that module's base address when its short base
name equals `module_name` case-insensitively and an absent value
otherwise — in particular also when a later module would have
matched — and an absent value when enumeration fails. -/
theorem C4_base_address_amended :
    (∀ name : List Char, Win.base_address none name = none) ∧
    (∀ (m : WinModule) (rest : List WinModule) (name : List Char),
      toLowercase m.baseName = toLowercase name →
      Win.base_address (some (m :: rest)) name = some m.hmod) ∧
    (∀ (m : WinModule) (rest : List WinModule) (name : List Char),
      toLowercase m.baseName ≠ toLowercase name →
      Win.base_address (some (m :: rest)) name = none) := by
  refine ⟨?_, ?_, ?_⟩
  · intro name
    rfl
  · intro m rest name h
    simp [Win.base_address, h]
  · intro m rest name h
    simp [Win.base_address, h]

/-- C4 amended, witness: a first module matching up to case is
returned regardless of the rest of the module list. -/
theorem C4_base_address_amended_witness :
    Win.base_address (some [⟨4096, chars "B.dll"⟩, ⟨8192, chars "c.dll"⟩])
      (chars "b.dll") = some 4096 :=
  C4_base_address_amended.2.1 ⟨4096, chars "B.dll"⟩ [⟨8192, chars "c.dll"⟩]
    (chars "b.dll") (by decide)

/-- C5: the syscall-based `base_address` scans the maps lines in
order; an unopenable maps file or an absence of matching lines yields
`none`, and for the first readable line whose trimmed text ends with
the module name it returns the hexadecimal parse of the text before
the first `-` — `some` of the parsed start address when the parse
succeeds. -/
theorem C5_linux_base_address :
    (∀ name : List Char, Linux.base_address none name = none) ∧
    (∀ (lines : List (Except Nat (List Char))) (name : List Char),
      (∀ l ∈ lines, lineMatches name l = false) →
      Linux.base_address (some lines) name = none) ∧
    (∀ (pre : List (Except Nat (List Char))) (line : List Char)
      (post : List (Except Nat (List Char))) (name : List Char),
      (∀ l ∈ pre, lineMatches name l = false) →
      endsWithL (trimL line) name = true →
      Linux.base_address (some (pre ++ .ok line :: post)) name =
        parseHexUsize (line.takeWhile fun c => c ≠ '-')) := by
  refine ⟨?_, ?_, ?_⟩
  · intro name
    rfl
  · intro lines name hn
    exact linux_base_go_no_match hn
  · intro pre line post name hn hmatch
    exact linux_base_go_first_match hn hmatch

/-- C5 witness: the first matching maps line wins — its leading hex
field is returned — and a maps file without a matching line yields
`none`. -/
theorem C5_linux_base_address_witness :
    Linux.base_address
        (some [.error 5, .ok (chars "00-11 rw-p 00000000 00:00 0"),
          .ok (chars "55e0ab-55e4cd r-xp 00000000 00:00 0 /usr/bin/bash"),
          .ok (chars "ffff-ffff r-xp 00000000 00:00 0 /usr/bin/bash")])
        (chars "bash") = some 5628075 ∧
      Linux.base_address (some [.ok (chars "aa-bb r-xp 0 /usr/bin/emacs")])
        (chars "bash") = none := by
  constructor
  · have h := C5_linux_base_address.2.2
      [.error 5, .ok (chars "00-11 rw-p 00000000 00:00 0")]
      (chars "55e0ab-55e4cd r-xp 00000000 00:00 0 /usr/bin/bash")
      [.ok (chars "ffff-ffff r-xp 00000000 00:00 0 /usr/bin/bash")]
      (chars "bash") (by decide) (by decide)
    have hp : parseHexUsize
        ((chars "55e0ab-55e4cd r-xp 00000000 00:00 0 /usr/bin/bash").takeWhile
          fun c => c ≠ '-') = some 5628075 := by decide
    rw [hp] at h
    exact h
  · exact C5_linux_base_address.2.1
      [.ok (chars "aa-bb r-xp 0 /usr/bin/emacs")] (chars "bash") (by decide)

/-- C6: `read_string` reads one byte at a time from the address; when
the bytes before the first zero are `bs` and the zero terminator is
read successfully, it returns (given enough fuel for the unbounded
Rust loop) the UTF-8 decoding of `bs` with the terminator excluded —
the empty string when the first byte is already zero, and the empty
string in place of an error when `bs` is not valid UTF-8; an error of
any underlying byte read is propagated. -/
theorem C6_read_string_spec :
    (∀ (rpm : Nat → Nat → Option (List Nat)) (address fuel : Nat),
      rpm address 1 = some [0] → 0 < fuel →
      Process.read_string rpm address fuel = some (.ok [])) ∧
    (∀ (rpm : Nat → Nat → Option (List Nat)) (address : Nat) (bs : List Nat)
      (fuel : Nat),
      (∀ i (h : i < bs.length),
        rpm (address + i) 1 = some [bs.get ⟨i, h⟩] ∧ bs.get ⟨i, h⟩ ≠ 0) →
      rpm (address + bs.length) 1 = some [0] →
      bs.length < fuel →
      Process.read_string rpm address fuel =
        some (.ok (fromUtf8OrEmpty bs))) ∧
    (∀ (rpm : Nat → Nat → Option (List Nat)) (address : Nat) (bs : List Nat)
      (fuel : Nat) (e : MemoryReadError),
      (∀ i (h : i < bs.length),
        rpm (address + i) 1 = some [bs.get ⟨i, h⟩] ∧ bs.get ⟨i, h⟩ ≠ 0) →
      Process.read_bytes rpm (address + bs.length) 1 = .error e →
      bs.length < fuel →
      Process.read_string rpm address fuel = some (.error e)) ∧
    (∀ bs : List Nat, utf8Decode bs = none → fromUtf8OrEmpty bs = []) ∧
    (∀ (bs cps : List Nat), utf8Decode bs = some cps →
      fromUtf8OrEmpty bs = cps) := by
  refine ⟨?_, ?_, ?_, ?_, ?_⟩
  · intro rpm address fuel h hf
    cases fuel with
    | zero => omega
    | succ f =>
      have hu : Process.read_u8 rpm address = .ok 0 := read_u8_of_byte h
      simp only [Process.read_string, Process.read_string_go, Nat.add_zero, hu]
      rfl
  · intro rpm address bs fuel hok hz hfuel
    have hgo := read_string_go_ok bs rpm address 0 [] fuel
      (fun i h => by simpa using hok i h) (by simpa using hz) hfuel
    rw [Process.read_string, hgo]
    simp [Except.map]
  · intro rpm address bs fuel e hok he hfuel
    have hgo := read_string_go_error bs rpm address 0 [] fuel e
      (fun i h => by simpa using hok i h) (by simpa using he) hfuel
    rw [Process.read_string, hgo]
    simp [Except.map]
  · intro bs h
    simp [fromUtf8OrEmpty, h]
  · intro bs cps h
    simp [fromUtf8OrEmpty, h]

/-- C6 witness: memory `[104, 105, 0]` reads back as the string
`"hi"` (terminator excluded), and memory `[255, 0]` — an invalid
UTF-8 byte before the terminator — reads back as the empty string. -/
theorem C6_read_string_witness :
    Process.read_string (fun a _ => some [[104, 105, 0].getD a 99]) 0 10 =
        some (.ok [104, 105]) ∧
      Process.read_string (fun a _ => some [[255, 0].getD a 99]) 0 10 =
        some (.ok []) := by
  constructor
  · have h := C6_read_string_spec.2.1 (fun a _ => some [[104, 105, 0].getD a 99])
      0 [104, 105] 10 (by decide) (by decide) (by decide)
    have hd : fromUtf8OrEmpty [104, 105] = [104, 105] := by decide
    rw [hd] at h
    exact h
  · have h := C6_read_string_spec.2.1 (fun a _ => some [[255, 0].getD a 99])
      0 [255] 10 (by decide) (by decide) (by decide)
    have hd : fromUtf8OrEmpty [255] = [] := by decide
    rw [hd] at h
    exact h

/-- C10: the handle-based `find_by_name` never examines the snapshot's
first entry: the result is unchanged under replacing the first entry
by any other, and every returned handle stems from an entry of the
tail — one that matched the query and opened successfully. -/
theorem C10_find_by_name_skips_first (op : Nat → Option Nat) (name : List Nat)
    (first : SnapEntry) (rest : List SnapEntry) :
    (∀ first2, Win.find_by_name (some (first :: rest)) op name =
      Win.find_by_name (some (first2 :: rest)) op name) ∧
    (∀ h, h ∈ Win.find_by_name (some (first :: rest)) op name →
      ∃ e, e ∈ rest ∧ entryName e = name ∧ op e.th32ProcessID = some h) := by
  constructor
  · intro first2
    rfl
  · intro h hmem
    rw [Win.find_by_name] at hmem
    exact win_find_go_mem hmem

/-- C10 witness: with two snapshot entries both named `[98]`, only the
second one's pid is opened and returned, and replacing the first entry
by an arbitrary different one leaves the result unchanged. -/
theorem C10_find_by_name_skips_first_witness :
    (∃ e, e ∈ [SnapEntry.mk [98, 0] 8] ∧ entryName e = [98] ∧
      (fun p => some (p * 10)) e.th32ProcessID = some 80) ∧
    Win.find_by_name (some [⟨[98, 0], 7⟩, ⟨[98, 0], 8⟩])
        (fun p => some (p * 10)) [98] =
      Win.find_by_name (some [⟨[99], 9⟩, ⟨[98, 0], 8⟩])
        (fun p => some (p * 10)) [98] := by
  constructor
  · exact (C10_find_by_name_skips_first (fun p => some (p * 10)) [98]
      ⟨[98, 0], 7⟩ [⟨[98, 0], 8⟩]).2 80 (by decide)
  · exact (C10_find_by_name_skips_first (fun p => some (p * 10)) [98]
      ⟨[98, 0], 7⟩ [⟨[98, 0], 8⟩]).1 ⟨[99], 9⟩

end ProcessMemoryReader
